import Mathlib

/-!
Verification of the MILP solver in `src/2025/day-10/src/part2.rs`
(two-phase Simplex with Bland's rule inside a Branch-and-Bound loop).

The Rust code works on `f64`; the shallow embedding below uses exact
rationals (`ℚ`), keeping every tolerance constant, comparison and control
path of the source.  Matrices (`nalgebra::DMatrix`) are embedded as lists
of rows; vectors that are only ever indexed are embedded as functions
`Nat → ℚ` together with explicit dimension fields.
-/

namespace Day10

/-- Numerical epsilon `EPSILON = 1e-9` from the source. -/
def EPSILON : ℚ := 1 / 1000000000

/-- Phase-1 feasibility tolerance `PHASE1_TOLERANCE = 1e-4`. -/
def PHASE1_TOLERANCE : ℚ := 1 / 10000

/-- Integrality tolerance `INTEGRALITY_TOLERANCE = 1e-3`. -/
def INTEGRALITY_TOLERANCE : ℚ := 1 / 1000

/-- Branch-and-bound pruning tolerance `PRUNING_TOLERANCE = 1e-5`. -/
def PRUNING_TOLERANCE : ℚ := 1 / 100000

/-- The value of `f64::MAX`, exact: `(2^53 - 1) * 2^971`, written as a
raw rational so that reduction of comparisons against it is direct. -/
def f64MAX : ℚ :=
  { num := 179769313486231570814527423731704356798070567525844996598917476803157260780028538760589558632766878171540458953514382464234321326889464182768467546703537516986049910576551282076245490090389328944075868508455133942304583236903222948165808559332123348274797826204144723168738177180919299881250404026184124858368
    den := 1
    den_nz := one_ne_zero
    reduced := Nat.coprime_one_right _ }

/-- `f64::round` of Rust: round half away from zero. -/
def rustRound (q : ℚ) : ℤ :=
  if 0 ≤ q then ⌊q + 1 / 2⌋ else ⌈q - 1 / 2⌉

/-- Matrix entry access `mat[(r, c)]`; out-of-range reads default to `0`
(the embedding only ever reads in-range entries). -/
def mget (t : List (List ℚ)) (r c : Nat) : ℚ :=
  (t.getD r []).getD c 0

/-- Build an `h × w` matrix from an entry function (row-major lists). -/
def mkMat (h w : Nat) (f : Nat → Nat → ℚ) : List (List ℚ) :=
  (List.range h).map (fun r => (List.range w).map (f r))

/-- `LinearSystem` of the source: `a` is `m × n`, `b` has length `m`,
`c` has length `n`, and `original_b` (length `origm`) is kept for the
final strict verification. -/
structure LinearSystem where
  m : Nat
  n : Nat
  a : Nat → Nat → ℚ
  b : Nat → ℚ
  c : Nat → ℚ
  origm : Nat
  original_b : Nat → ℚ

/-- `Solution` of the source. -/
structure Solution where
  x : List ℚ
  cost : ℚ
deriving DecidableEq

/-- `setup_phase_one`: tableau `[A·sign | I | b·sign]` with the Phase-1
objective row written as negated column sums and the artificial columns
of the objective row zeroed.  Returns `(tableau, m, n)`. -/
def setupPhaseOne (sys : LinearSystem) : List (List ℚ) × Nat × Nat :=
  let m := sys.m
  let n := sys.n
  let width := n + m + 1
  let constr : Nat → Nat → ℚ := fun r c =>
    let sign : ℚ := if sys.b r < 0 then -1 else 1
    if c < n then sys.a r c * sign
    else if c = n + r then 1
    else if c = width - 1 then sys.b r * sign
    else 0
  let obj : Nat → ℚ := fun c =>
    if n ≤ c ∧ c < n + m then 0
    else -(((List.range m).map (fun r => constr r c)).sum)
  (mkMat (m + 1) width (fun r c => if r < m then constr r c else obj c), m, n)

/-- `pivot`: normalize row `pr` by the pivot value and eliminate column
`pc` from every other row (rows `0..=m`, columns `0..=n`). -/
def pivotT (t : List (List ℚ)) (pr pc m n : Nat) : List (List ℚ) :=
  let pv := mget t pr pc
  mkMat (m + 1) (n + 1) (fun r c =>
    if r = pr then mget t pr c * (1 / pv)
    else if EPSILON < |mget t r pc| then
      mget t r c - mget t r pc * (mget t pr c * (1 / pv))
    else mget t r c)

/-- Bland's rule: the first column of `0..n` whose objective-row entry is
below `-EPSILON`. -/
def blandCol (t : List (List ℚ)) (m n : Nat) : Option Nat :=
  (List.range n).find? (fun c => decide (mget t m c < -EPSILON))

/-- One row of the minimum-ratio scan: a row whose entry in column `pc`
exceeds `EPSILON` and whose ratio `rhs / entry` is strictly below the
best ratio so far replaces the current leaving-row candidate. -/
def mrStep (t : List (List ℚ)) (n pc : Nat) (acc : Option Nat × ℚ) (r : Nat) :
    Option Nat × ℚ :=
  let val := mget t r pc
  if EPSILON < val then
    let q := mget t r n / val
    if q < acc.2 then (some r, q) else acc
  else acc

/-- The accumulator of the minimum-ratio scan after the first `m` rows. -/
def mrFold (t : List (List ℚ)) (n pc m : Nat) : Option Nat × ℚ :=
  (List.range m).foldl (mrStep t n pc) (none, f64MAX)

/-- Minimum-ratio test of the source: fold `mrStep` over rows `0..m`,
starting from no candidate and best ratio `f64::MAX`. -/
def minRatioRow (t : List (List ℚ)) (m n pc : Nat) : Option Nat :=
  (mrFold t n pc m).1

/-- One iteration of the pivot loop: `some true` = optimal verdict,
`some false` = unbounded verdict, `none` = a pivot was performed. -/
def pivotStep (m n : Nat) (t : List (List ℚ)) : List (List ℚ) × Option Bool :=
  match blandCol t m n with
  | none => (t, some true)
  | some pc =>
    match minRatioRow t m n pc with
    | none => (t, some false)
    | some pr => (pivotT t pr pc m n, none)

/-- The pivot loop with explicit fuel (the source's remaining iteration
budget); returns the final tableau and the source's `bool`. -/
def runPivotLoopAux (m n : Nat) : Nat → List (List ℚ) → List (List ℚ) × Bool
  | 0, t => (t, false)
  | fuel + 1, t =>
    match pivotStep m n t with
    | (t', some v) => (t', v)
    | (t', none) => runPivotLoopAux m n fuel t'

/-- `run_pivot_loop` with the source's `max_iters = 5000`. -/
def runPivotLoop (t : List (List ℚ)) (m n : Nat) : List (List ℚ) × Bool :=
  runPivotLoopAux m n 5000 t

/-- `find_basis_col`: first column in `0..total_cols` holding a `≈1` entry
in row `r` that is a unit column over rows `0..m`. -/
def findBasisCol (t : List (List ℚ)) (r m total_cols : Nat) : Option Nat :=
  (List.range total_cols).find? (fun c =>
    decide (|mget t r c - 1| < EPSILON ∧
      ∀ o ∈ List.range m, o = r ∨ |mget t o c| < EPSILON))

/-- `prepare_phase_two`: record the basic column of each row, pivot out
basic artificials (or mark the row redundant), drop redundant rows, and
copy the surviving rows (structural columns plus RHS) into a fresh
`(new_m + 1) × (n + 1)` tableau.  Returns `(phase2, new_m)`. -/
def preparePhaseTwo (t : List (List ℚ)) (m n : Nat) : List (List ℚ) × Nat :=
  let width := (t.headD []).length
  let basis0 := (List.range m).map (fun r => findBasisCol t r m (width - 1))
  let step := fun (acc : List (List ℚ) × List (Option Nat)) (r : Nat) =>
    match acc.2.getD r none with
    | none => acc
    | some bc =>
      if bc < n then acc
      else
        match (List.range n).find? (fun c => decide (EPSILON < |mget acc.1 r c|)) with
        | some pc => (pivotT acc.1 r pc m (width - 1), acc.2.set r (some pc))
        | none => (acc.1, acc.2.set r none)
  let repaired := (List.range m).foldl step (t, basis0)
  let active := (List.range m).filter (fun r => (repaired.2.getD r none).isSome)
  let newM := active.length
  let p2 := mkMat (newM + 1) (n + 1) (fun nr c =>
    if nr < newM then
      let oldR := active.getD nr 0
      if c < n then mget repaired.1 oldR c else mget repaired.1 oldR (width - 1)
    else 0)
  (p2, newM)

/-- `setup_phase_two_objective`: write the original costs into the
objective row, then eliminate every basic variable from it. -/
def setupPhaseTwoObjective (phase2 : List (List ℚ)) (cv : Nat → ℚ) (m n : Nat) :
    List (List ℚ) :=
  let start := phase2.set m
    ((List.range (n + 1)).map (fun c => if c < n then cv c else mget phase2 m c))
  (List.range m).foldl
    (fun t r =>
      match findBasisCol t r m n with
      | none => t
      | some bc =>
        let factor := mget t m bc
        if EPSILON < |factor| then
          t.set m ((List.range (n + 1)).map (fun c => mget t m c - factor * mget t r c))
        else t)
    start

/-- `extract_solution`: read each structural variable off the tableau when
its column is a unit column (exactly one entry above `EPSILON`, equal to
`≈1`); the cost is the negated objective-row RHS. -/
def extractSolution (t : List (List ℚ)) (m n : Nat) : Option Solution :=
  let x := (List.range n).map (fun c =>
    let scan := (List.range m).foldl
      (fun (acc : Option Nat × Nat) r =>
        let val := mget t r c
        if EPSILON < |val| then
          (if |val - 1| < EPSILON then some r else acc.1, acc.2 + 1)
        else acc)
      (none, 0)
    match scan with
    | (some r, 1) => mget t r n
    | _ => 0)
  some { x := x, cost := -(mget t m n) }

/-- Phase-1 tableau of `simplex::solve`. -/
def phase1Tab (sys : LinearSystem) : List (List ℚ) :=
  (setupPhaseOne sys).1

/-- Phase-1 pivot loop run of `simplex::solve` (`n` argument is the
objective/RHS column index `width - 1 = n + m`). -/
def phase1Run (sys : LinearSystem) : List (List ℚ) × Bool :=
  runPivotLoop (phase1Tab sys) sys.m (sys.n + sys.m)

/-- Phase-1 optimal objective value read off the finished tableau. -/
def phase1Cost (sys : LinearSystem) : ℚ :=
  mget (phase1Run sys).1 sys.m (sys.n + sys.m)

/-- Phase-2 starting tableau (after basis repair and objective setup)
paired with the number of surviving rows. -/
def phase2Start (sys : LinearSystem) : List (List ℚ) × Nat :=
  let p := preparePhaseTwo (phase1Run sys).1 sys.m sys.n
  (setupPhaseTwoObjective p.1 sys.c p.2 sys.n, p.2)

/-- Phase-2 pivot loop run of `simplex::solve`. -/
def phase2Run (sys : LinearSystem) : List (List ℚ) × Bool :=
  runPivotLoop (phase2Start sys).1 (phase2Start sys).2 sys.n

/-- `simplex::solve`. -/
def simplexSolve (sys : LinearSystem) : Option Solution :=
  if (phase1Run sys).2 = false then none
  else if PHASE1_TOLERANCE < |phase1Cost sys| then none
  else if (phase2Run sys).2 = false then none
  else extractSolution (phase2Run sys).1 (phase2Start sys).2 sys.n

/-- `BranchNode` of the source: per-variable integer bounds. -/
structure BranchNode where
  lower_bounds : List ℚ
  upper_bounds : List (Option ℚ)
deriving DecidableEq

/-- The mutable state of `milp::solve`'s search loop. -/
structure MilpState where
  stack : List BranchNode
  best_int_cost : ℚ
  best_sol : Option (List Nat)
deriving DecidableEq

/-- Initial state of `milp::solve`: one root node with all-zero lower
bounds and no upper bounds, incumbent cost `f64::MAX`, no solution. -/
def milpInit (n : Nat) : MilpState :=
  { stack := [{ lower_bounds := List.replicate n 0, upper_bounds := List.replicate n none }],
    best_int_cost := f64MAX,
    best_sol := none }

/-- Lower-bound application of `build_relaxed_system`: for each variable
with positive lower bound, shift the RHS by the corresponding column and
accumulate the shift cost. -/
def applyLowerBounds (sys : LinearSystem) (lbs : List ℚ) : (Nat → ℚ) × ℚ :=
  (List.range sys.n).foldl
    (fun acc c =>
      let lb := lbs.getD c 0
      if 0 < lb then ((fun r => acc.1 r - sys.a r c * lb), acc.2 + lb * sys.c c)
      else acc)
    (sys.b, 0)

/-- Upper-bound collection of `build_relaxed_system`: walk the variable
indices; a bound `ub - lb` below `-1e-3` aborts with `none`, otherwise
the pair `(index, max (ub - lb) 0)` is recorded. -/
def collectSlacks (lbs : List ℚ) (ubs : List (Option ℚ)) :
    List Nat → Option (List (Nat × ℚ))
  | [] => some []
  | c :: cs =>
    match ubs.getD c none with
    | none => collectSlacks lbs ubs cs
    | some ub =>
      let limit := ub - lbs.getD c 0
      if limit < -(1 / 1000) then none
      else Option.map (fun rest => (c, max limit 0) :: rest) (collectSlacks lbs ubs cs)

/-- `build_relaxed_system`: shift the RHS by the lower bounds, then append
one slack row and column per upper-bounded variable. -/
def buildRelaxedSystem (sys : LinearSystem) (node : BranchNode) :
    Option (LinearSystem × ℚ) :=
  let shifted := applyLowerBounds sys node.lower_bounds
  match collectSlacks node.lower_bounds node.upper_bounds (List.range sys.n) with
  | none => none
  | some slacks =>
    let k := slacks.length
    some
      ({ m := sys.m + k
         n := sys.n + k
         a := fun r c =>
           if r < sys.m then (if c < sys.n then sys.a r c else 0)
           else
             if c = (slacks.getD (r - sys.m) (0, 0)).1 then 1
             else if c = sys.n + (r - sys.m) then 1
             else 0
         b := fun r =>
           if r < sys.m then shifted.1 r else (slacks.getD (r - sys.m) (0, 0)).2
         c := fun j => if j < sys.n then sys.c j else 0
         origm := sys.origm
         original_b := sys.original_b }, shifted.2)

/-- `map_solution_to_original`: add back the lower-bound shift and record
the first coordinate further than `INTEGRALITY_TOLERANCE` from an
integer. -/
def mapSolutionToOriginal (sol : Solution) (node : BranchNode) :
    List ℚ × Option (Nat × ℚ) :=
  (List.range node.lower_bounds.length).foldl
    (fun (acc : List ℚ × Option (Nat × ℚ)) c =>
      let val := sol.x.getD c 0 + node.lower_bounds.getD c 0
      let ff :=
        match acc.2 with
        | some p => some p
        | none =>
          if INTEGRALITY_TOLERANCE < |val - (rustRound val : ℚ)| then some (c, val)
          else none
      (acc.1 ++ [val], ff))
    ([], none)

/-- `verify_strict`: every row of the original, unshifted system must
satisfy `|A · round(x) - original_b| ≤ 0.5`. -/
def verifyStrict (sys : LinearSystem) (x : List ℚ) : Bool :=
  (List.range sys.origm).all (fun r =>
    decide
      (|(((List.range x.length).map
            (fun c => sys.a r c * ((rustRound (x.getD c 0) : ℤ) : ℚ))).sum) -
          sys.original_b r| ≤ 1 / 2))

/-- One iteration of `milp::solve`'s `while let Some(node) = stack.pop()`
loop: pop a node, build and solve its relaxation, then prune, branch or
accept exactly as the source does. -/
def milpStep (sys : LinearSystem) (st : MilpState) : MilpState :=
  match st.stack with
  | [] => st
  | node :: rest =>
    match buildRelaxedSystem sys node with
    | none => { st with stack := rest }
    | some (lpSys, shiftCost) =>
      match simplexSolve lpSys with
      | none => { st with stack := rest }
      | some sol =>
        let totalCost := sol.cost + shiftCost
        if st.best_int_cost - PRUNING_TOLERANCE ≤ totalCost then
          { st with stack := rest }
        else
          match mapSolutionToOriginal sol node with
          | (_, some fr) =>
            let floorVal : ℚ := ⌊fr.2⌋
            let ceilVal : ℚ := ⌈fr.2⌉
            let currentUb := (node.upper_bounds.getD fr.1 none).getD f64MAX
            let left : BranchNode :=
              { lower_bounds := node.lower_bounds
                upper_bounds := node.upper_bounds.set fr.1 (some (min currentUb floorVal)) }
            let right : BranchNode :=
              { lower_bounds :=
                  node.lower_bounds.set fr.1 (max (node.lower_bounds.getD fr.1 0) ceilVal)
                upper_bounds := node.upper_bounds }
            { st with stack := right :: left :: rest }
          | (fullX, none) =>
            if verifyStrict sys fullX then
              let cost : Nat := (fullX.map (fun v => (rustRound v).toNat)).sum
              if (cost : ℚ) < st.best_int_cost then
                { stack := rest
                  best_int_cost := (cost : ℚ)
                  best_sol := some (fullX.map (fun v => (rustRound v).toNat)) }
              else { st with stack := rest }
            else { st with stack := rest }

/-- The search loop of `milp::solve`, with fuel bounding the number of
popped nodes. -/
def milpLoop (sys : LinearSystem) : Nat → MilpState → MilpState
  | 0, st => st
  | fuel + 1, st => if st.stack = [] then st else milpLoop sys fuel (milpStep sys st)

/-- `milp::solve` (modulo fuel): final answer is the coordinate sum of the
best integer solution, when one was found. -/
def milpSolve (sys : LinearSystem) (fuel : Nat) : Option Nat :=
  (milpLoop sys fuel (milpInit sys.n)).best_sol.map List.sum

/-- The relaxed cost `sol.cost + shift_cost` a popped node produces, when
its relaxation is accepted and solvable. -/
def nodeLpCost (sys : LinearSystem) (node : BranchNode) : Option ℚ :=
  match buildRelaxedSystem sys node with
  | none => none
  | some (lpSys, shiftCost) => (simplexSolve lpSys).map (fun sol => sol.cost + shiftCost)

/-- The first fractional coordinate a popped node's relaxation exhibits,
when the relaxation is accepted and solvable. -/
def nodeFractional (sys : LinearSystem) (node : BranchNode) : Option (Nat × ℚ) :=
  match buildRelaxedSystem sys node with
  | none => none
  | some (lpSys, _) =>
    match simplexSolve lpSys with
    | none => none
    | some sol => (mapSolutionToOriginal sol node).2

/-- The integer candidate a popped node offers: the mapped-back solution
vector, produced when the relaxation solves and no coordinate is
fractional. -/
def nodeCandidate (sys : LinearSystem) (node : BranchNode) : Option (List ℚ) :=
  match buildRelaxedSystem sys node with
  | none => none
  | some (lpSys, _) =>
    match simplexSolve lpSys with
    | none => none
    | some sol =>
      match mapSolutionToOriginal sol node with
      | (fullX, none) => some fullX
      | (_, some _) => none

/-- `k`-fold application of `pivotStep` (a step that has produced a
verdict leaves the tableau unchanged, so iterating past a verdict is
stable). -/
def iterPivot (m n : Nat) (t : List (List ℚ)) : Nat → List (List ℚ)
  | 0 => t
  | k + 1 => (pivotStep m n (iterPivot m n t k)).1

/-- A square-free helper to build `1 × 1` systems for concrete runs. -/
def mk11 (aval bval obval cval : ℚ) : LinearSystem :=
  { m := 1, n := 1
    a := fun _ _ => aval
    b := fun _ => bval
    c := fun _ => cval
    origm := 1
    original_b := fun _ => obval }

/-- Concrete system whose LP relaxation yields the integer point `x = 3`
but whose `original_b` differs, so strict verification rejects it. -/
def sysBad : LinearSystem := mk11 1 3 1000 1

/-- Concrete system accepted end-to-end: `x = 2`, strict verification
passes, incumbent cost becomes `2`. -/
def sysOk : LinearSystem := mk11 1 2 2 1

/-- Concrete infeasible system: `x = -1` is not non-negative, so Phase 1
ends with cost `-1` and the solver reports infeasibility. -/
def sysInfeas : LinearSystem := mk11 1 (-1) (-1) 1

/-- Concrete system with fractional relaxation `2 x = 1`, forcing a
branch on `x` at value `1/2`. -/
def sysFrac : LinearSystem := mk11 2 1 1 1

/-- Concrete system whose Phase-2 relaxation is unbounded (no
constraints, negative cost). -/
def sysUnb : LinearSystem :=
  { m := 0, n := 1
    a := fun _ _ => 0
    b := fun _ => 0
    c := fun _ => -1
    origm := 0
    original_b := fun _ => 0 }

/-- Concrete system whose Phase-1 pivot loop aborts with the unbounded
verdict: three rows whose entries `5e-10` each stay below `EPSILON`,
while their column sum `1.5e-9` makes the reduced cost negative. -/
def sysP1F : LinearSystem :=
  { m := 3, n := 1
    a := fun _ _ => 5 / 10000000000
    b := fun _ => 0
    c := fun _ => 1
    origm := 3
    original_b := fun _ => 0 }

/-- Concrete system `2 x = -3` with a negative right-hand side, so the
Phase-1 setup flips row 0. -/
def sysNegRhs : LinearSystem := mk11 2 (-3) (-3) 1

/-- Concrete node with a just-closed bound `ub = lb = 0` on the single
variable, producing the slack pair `(0, 0)`. -/
def nodeTight : BranchNode := { lower_bounds := [0], upper_bounds := [some 0] }

/-- Concrete node whose bound `ub - lb = -1` is below `-1e-3`, so the
relaxation construction rejects it. -/
def nodeNeg : BranchNode := { lower_bounds := [1], upper_bounds := [some 0] }

/-- The root branch node for a single-variable system. -/
def rootNode1 : BranchNode := { lower_bounds := [0], upper_bounds := [none] }

/-- Concrete tableau (two constraint rows, objective row): row 0 has a
strictly positive pivot-column entry `1e-10` below `EPSILON` with ratio
`0`; row 1 has entry `1` with ratio `5`. -/
def tC3 : List (List ℚ) := [[1 / 10000000000, 0], [1, 5], [-1, 0]]

/-- Concrete tableau (one constraint row, objective row) on which the
pivot loop performs a pivot at row 0, column 0. -/
def tW : List (List ℚ) := [[1, 2], [-1, 0]]

/-- Concrete objective-only tableau with a negative reduced cost and no
constraint rows: the pivot loop's unbounded verdict. -/
def tU : List (List ℚ) := [[-1, 0]]

/- ------------------------------------------------------------------ -/
/- Helper lemmas                                                      -/
/- ------------------------------------------------------------------ -/

theorem mget_mkMat (h w : Nat) (f : Nat → Nat → ℚ) (r c : Nat)
    (hr : r < h) (hc : c < w) : mget (mkMat h w f) r c = f r c := by
  unfold mget mkMat
  simp only [List.getD_eq_getElem?_getD, List.getElem?_map, List.getElem?_range hr,
    List.getElem?_range hc, Option.map_some', Option.getD_some]

theorem find?_range_first {p : Nat → Bool} :
    ∀ {n c : Nat}, (List.range n).find? p = some c →
      c < n ∧ p c = true ∧ ∀ j < c, p j = false := by
  intro n
  induction n with
  | zero => intro c h; simp [List.range_zero] at h
  | succ n ih =>
    intro c h
    rw [List.range_succ, List.find?_append] at h
    cases hn : (List.range n).find? p with
    | some c' =>
      rw [hn] at h
      simp only [Option.or_some] at h
      cases h
      obtain ⟨h1, h2, h3⟩ := ih hn
      exact ⟨Nat.lt_succ_of_lt h1, h2, h3⟩
    | none =>
      rw [hn] at h
      simp only [Option.none_or] at h
      have hall : ∀ j < n, p j = false := by
        intro j hj
        have := List.find?_eq_none.mp hn j (List.mem_range.mpr hj)
        exact Bool.not_eq_true _ ▸ Bool.of_not_eq_true this
      cases hp : p n with
      | true =>
        rw [List.find?_cons_of_pos _ hp] at h
        cases h
        exact ⟨Nat.lt_succ_self _, hp, hall⟩
      | false =>
        rw [List.find?_cons_of_neg _ (by simp [hp])] at h
        simp at h

theorem setupPhaseOne_entry (sys : LinearSystem) (r c : Nat)
    (hr : r < sys.m) (hc : c < sys.n + sys.m + 1) :
    mget (setupPhaseOne sys).1 r c =
      (if c < sys.n then sys.a r c * (if sys.b r < 0 then -1 else 1)
       else if c = sys.n + r then 1
       else if c = sys.n + sys.m then sys.b r * (if sys.b r < 0 then -1 else 1)
       else 0) := by
  unfold setupPhaseOne
  dsimp only
  rw [mget_mkMat _ _ _ _ _ (Nat.lt_succ_of_lt hr) hc]
  simp [hr, Nat.add_sub_cancel]

theorem mrFold_inv (t : List (List ℚ)) (n pc : Nat) :
    ∀ m : Nat,
      (mrFold t n pc m = (none, f64MAX) ∧
        ∀ r < m, EPSILON < mget t r pc → ¬(mget t r n / mget t r pc < f64MAX)) ∨
      (∃ pr, mrFold t n pc m = (some pr, mget t pr n / mget t pr pc) ∧ pr < m ∧
        EPSILON < mget t pr pc ∧ mget t pr n / mget t pr pc < f64MAX ∧
        (∀ r < m, EPSILON < mget t r pc →
          mget t pr n / mget t pr pc ≤ mget t r n / mget t r pc) ∧
        (∀ r < pr, EPSILON < mget t r pc →
          mget t pr n / mget t pr pc < mget t r n / mget t r pc)) := by
  intro m
  induction m with
  | zero =>
    left
    exact ⟨rfl, fun r hr => absurd hr (Nat.not_lt_zero r)⟩
  | succ m ih =>
    have hstep : mrFold t n pc (m + 1) = mrStep t n pc (mrFold t n pc m) m := by
      unfold mrFold
      rw [List.range_succ, List.foldl_append]
      rfl
    rcases ih with ⟨hacc, hall⟩ | ⟨pr, hacc, hpr, hval, hmax, hmin, hfirst⟩
    · by_cases hv : EPSILON < mget t m pc
      · by_cases hq : mget t m n / mget t m pc < f64MAX
        · right
          refine ⟨m, ?_, Nat.lt_succ_self _, hv, hq, ?_, ?_⟩
          · rw [hstep, hacc]
            simp [mrStep, hv, hq]
          · intro r hr hvr
            rcases Nat.lt_succ_iff_lt_or_eq.mp hr with hr' | rfl
            · exact le_of_lt (lt_of_lt_of_le hq (not_lt.mp (hall r hr' hvr)))
            · exact le_refl _
          · intro r hr hvr
            exact lt_of_lt_of_le hq (not_lt.mp (hall r hr hvr))
        · left
          constructor
          · rw [hstep, hacc]
            simp [mrStep, hv, hq]
          · intro r hr hvr
            rcases Nat.lt_succ_iff_lt_or_eq.mp hr with hr' | rfl
            · exact hall r hr' hvr
            · exact hq
      · left
        constructor
        · rw [hstep, hacc]
          simp [mrStep, hv]
        · intro r hr hvr
          rcases Nat.lt_succ_iff_lt_or_eq.mp hr with hr' | rfl
          · exact hall r hr' hvr
          · exact absurd hvr hv
    · by_cases hv : EPSILON < mget t m pc
      · by_cases hq : mget t m n / mget t m pc < mget t pr n / mget t pr pc
        · right
          refine ⟨m, ?_, Nat.lt_succ_self _, hv, lt_trans hq hmax, ?_, ?_⟩
          · rw [hstep, hacc]
            simp [mrStep, hv, hq]
          · intro r hr hvr
            rcases Nat.lt_succ_iff_lt_or_eq.mp hr with hr' | rfl
            · exact le_of_lt (lt_of_lt_of_le hq (hmin r hr' hvr))
            · exact le_refl _
          · intro r hr hvr
            exact lt_of_lt_of_le hq (hmin r hr hvr)
        · right
          refine ⟨pr, ?_, Nat.lt_succ_of_lt hpr, hval, hmax, ?_, hfirst⟩
          · rw [hstep, hacc]
            simp [mrStep, hv, hq]
          · intro r hr hvr
            rcases Nat.lt_succ_iff_lt_or_eq.mp hr with hr' | rfl
            · exact hmin r hr' hvr
            · exact not_lt.mp hq
      · right
        refine ⟨pr, ?_, Nat.lt_succ_of_lt hpr, hval, hmax, ?_, hfirst⟩
        · rw [hstep, hacc]
          simp [mrStep, hv]
        · intro r hr hvr
          rcases Nat.lt_succ_iff_lt_or_eq.mp hr with hr' | rfl
          · exact hmin r hr' hvr
          · exact absurd hvr hv

theorem minRatioRow_spec (t : List (List ℚ)) (m n pc pr : Nat)
    (h : minRatioRow t m n pc = some pr) :
    pr < m ∧ EPSILON < mget t pr pc ∧
    (∀ r < m, EPSILON < mget t r pc →
      mget t pr n / mget t pr pc ≤ mget t r n / mget t r pc) ∧
    (∀ r < pr, EPSILON < mget t r pc →
      mget t pr n / mget t pr pc < mget t r n / mget t r pc) := by
  have heq : minRatioRow t m n pc = (mrFold t n pc m).1 := rfl
  rcases mrFold_inv t n pc m with ⟨hacc, _⟩ | ⟨q, hacc, h1, h2, _, h4, h5⟩
  · rw [heq, hacc] at h
    exact absurd h (by simp)
  · rw [heq, hacc] at h
    simp only [Option.some.injEq] at h
    subst h
    exact ⟨h1, h2, h4, h5⟩

section MilpStepCases

variable {sys : LinearSystem} {st : MilpState} {node : BranchNode}
variable {rest : List BranchNode} {lp : LinearSystem} {sc : ℚ} {sol : Solution}

theorem milpStep_build_none (h : st.stack = node :: rest)
    (hb : buildRelaxedSystem sys node = none) :
    milpStep sys st = { st with stack := rest } := by
  unfold milpStep
  rw [h]
  dsimp only
  rw [hb]

theorem milpStep_solve_none (h : st.stack = node :: rest)
    (hb : buildRelaxedSystem sys node = some (lp, sc))
    (hs : simplexSolve lp = none) :
    milpStep sys st = { st with stack := rest } := by
  unfold milpStep
  rw [h]
  dsimp only
  rw [hb]
  dsimp only
  rw [hs]

theorem milpStep_pruned (h : st.stack = node :: rest)
    (hb : buildRelaxedSystem sys node = some (lp, sc))
    (hs : simplexSolve lp = some sol)
    (hp : st.best_int_cost - PRUNING_TOLERANCE ≤ sol.cost + sc) :
    milpStep sys st = { st with stack := rest } := by
  unfold milpStep
  rw [h]
  dsimp only
  rw [hb]
  dsimp only
  rw [hs]
  dsimp only
  rw [if_pos hp]

theorem milpStep_branch (h : st.stack = node :: rest)
    (hb : buildRelaxedSystem sys node = some (lp, sc))
    (hs : simplexSolve lp = some sol)
    (hp : ¬ (st.best_int_cost - PRUNING_TOLERANCE ≤ sol.cost + sc))
    {fx : List ℚ} {idx : Nat} {v : ℚ}
    (hf : mapSolutionToOriginal sol node = (fx, some (idx, v))) :
    milpStep sys st =
      { st with stack :=
          { lower_bounds :=
              node.lower_bounds.set idx (max (node.lower_bounds.getD idx 0) ⌈v⌉)
            upper_bounds := node.upper_bounds } ::
          { lower_bounds := node.lower_bounds
            upper_bounds := node.upper_bounds.set idx
              (some (min ((node.upper_bounds.getD idx none).getD f64MAX) ⌊v⌋)) } ::
          rest } := by
  unfold milpStep
  rw [h]
  dsimp only
  rw [hb]
  dsimp only
  rw [hs]
  dsimp only
  rw [if_neg hp, hf]

theorem milpStep_reject (h : st.stack = node :: rest)
    (hb : buildRelaxedSystem sys node = some (lp, sc))
    (hs : simplexSolve lp = some sol)
    (hp : ¬ (st.best_int_cost - PRUNING_TOLERANCE ≤ sol.cost + sc))
    {fx : List ℚ}
    (hf : mapSolutionToOriginal sol node = (fx, none))
    (hv : verifyStrict sys fx = false) :
    milpStep sys st = { st with stack := rest } := by
  unfold milpStep
  rw [h]
  dsimp only
  rw [hb]
  dsimp only
  rw [hs]
  dsimp only
  rw [if_neg hp, hf]
  dsimp only
  rw [hv]
  simp

theorem milpStep_accept (h : st.stack = node :: rest)
    (hb : buildRelaxedSystem sys node = some (lp, sc))
    (hs : simplexSolve lp = some sol)
    (hp : ¬ (st.best_int_cost - PRUNING_TOLERANCE ≤ sol.cost + sc))
    {fx : List ℚ}
    (hf : mapSolutionToOriginal sol node = (fx, none))
    (hv : verifyStrict sys fx = true) :
    milpStep sys st =
      (if ((fx.map (fun v => (rustRound v).toNat)).sum : ℚ) < st.best_int_cost then
        { stack := rest
          best_int_cost := ((fx.map (fun v => (rustRound v).toNat)).sum : ℚ)
          best_sol := some (fx.map (fun v => (rustRound v).toNat)) }
      else { st with stack := rest }) := by
  unfold milpStep
  rw [h]
  dsimp only
  rw [hb]
  dsimp only
  rw [hs]
  dsimp only
  rw [if_neg hp, hf]
  dsimp only
  rw [hv]
  simp

end MilpStepCases

/- ------------------------------------------------------------------ -/
/- Claim theorems                                                     -/
/- ------------------------------------------------------------------ -/

/-- C2, counterexample: on the system `x·2 = -3` (negative right-hand
side, so the row is flipped), the artificial-column entry of row 0 in the
Phase-1 tableau is `+1`, not `-1` as the claim's "multiply the row and
the row's artificial-column entry by −1" dictates. -/
theorem c2_phase1_flip_counterexample :
    sysNegRhs.b 0 < 0 ∧
    mget (setupPhaseOne sysNegRhs).1 0 1 = 1 ∧
    ¬ mget (setupPhaseOne sysNegRhs).1 0 1 = -1 := by
  refine ⟨by norm_num [sysNegRhs, mk11], ?_, ?_⟩ <;> decide

/-- C2, amended: in Phase-1 setup, a constraint row with negative
right-hand side has its `A`-entries and its right-hand side multiplied by
`-1` while its artificial-column entry is set to `1` (not multiplied by
`-1`); a row with non-negative right-hand side is copied unchanged, also
with artificial-column entry `1`. -/
theorem c2_phase1_flip_amended (sys : LinearSystem) (r c : Nat)
    (hr : r < sys.m) (hc : c < sys.n) :
    (sys.b r < 0 →
      mget (setupPhaseOne sys).1 r c = -(sys.a r c) ∧
      mget (setupPhaseOne sys).1 r (sys.n + r) = 1 ∧
      mget (setupPhaseOne sys).1 r (sys.n + sys.m) = -(sys.b r)) ∧
    (0 ≤ sys.b r →
      mget (setupPhaseOne sys).1 r c = sys.a r c ∧
      mget (setupPhaseOne sys).1 r (sys.n + r) = 1 ∧
      mget (setupPhaseOne sys).1 r (sys.n + sys.m) = sys.b r) := by
  have e1 := setupPhaseOne_entry sys r c hr (by omega)
  have e2 := setupPhaseOne_entry sys r (sys.n + r) hr (by omega)
  have e3 := setupPhaseOne_entry sys r (sys.n + sys.m) hr (by omega)
  have hc' : ¬ (sys.n + r < sys.n) := by omega
  have hc'' : ¬ (sys.n + sys.m < sys.n) := by omega
  have hne : ¬ (sys.n + sys.m = sys.n + r) := by omega
  constructor
  · intro hb
    refine ⟨?_, ?_, ?_⟩
    · rw [e1]; simp [hc, hb]
    · rw [e2]; simp [hc', hb]
    · rw [e3]; simp [hc'', hne, hb]
  · intro hb
    have hb' : ¬ (sys.b r < 0) := not_lt.mpr hb
    refine ⟨?_, ?_, ?_⟩
    · rw [e1]; simp [hc, hb']
    · rw [e2]; simp [hc', hb']
    · rw [e3]; simp [hc'', hne, hb']

/-- C3, counterexample: in tableau `tC3` (pivot column 0, RHS column 1,
two constraint rows) the code picks row 1, although row 0 has a strictly
positive pivot-column entry (`1e-10`) and a strictly smaller ratio — the
claim's "minimum-ratio test over rows with strictly positive
pivot-column entry" would have to pick row 0; the code only considers
entries above `EPSILON = 1e-9`. -/
theorem c3_pivot_selection_counterexample :
    minRatioRow tC3 2 1 0 = some 1 ∧ 0 < mget tC3 0 0 ∧
    mget tC3 0 1 / mget tC3 0 0 < mget tC3 1 1 / mget tC3 1 0 := by
  with_unfolding_all decide

/-- C3, amended: the entering column is the first column whose reduced
cost is below `-EPSILON`; the leaving row is the minimum-ratio row among
rows whose pivot-column entry exceeds `EPSILON` (not merely strictly
positive), the first row achieving the minimum winning ties; and every
pivot performed by the loop uses exactly this selection. -/
theorem c3_pivot_selection_amended (t : List (List ℚ)) (m n : Nat) :
    (∀ pc, blandCol t m n = some pc →
      pc < n ∧ mget t m pc < -EPSILON ∧ ∀ j < pc, ¬(mget t m j < -EPSILON)) ∧
    (∀ pc pr, minRatioRow t m n pc = some pr →
      pr < m ∧ EPSILON < mget t pr pc ∧
      (∀ r < m, EPSILON < mget t r pc →
        mget t pr n / mget t pr pc ≤ mget t r n / mget t r pc) ∧
      (∀ r < pr, EPSILON < mget t r pc →
        mget t pr n / mget t pr pc < mget t r n / mget t r pc)) ∧
    (∀ pc pr, blandCol t m n = some pc → minRatioRow t m n pc = some pr →
      pivotStep m n t = (pivotT t pr pc m n, none)) := by
  refine ⟨?_, ?_, ?_⟩
  · intro pc h
    obtain ⟨h1, h2, h3⟩ := find?_range_first h
    refine ⟨h1, of_decide_eq_true h2, ?_⟩
    intro j hj
    have := h3 j hj
    simpa using of_decide_eq_false this
  · intro pc pr h
    exact minRatioRow_spec t m n pc pr h
  · intro pc pr h1 h2
    unfold pivotStep
    rw [h1]
    dsimp only
    rw [h2]

/-- C3, witness: on the concrete tableau `tW` the amended selection rule
fires: column 0 has the negative reduced cost, row 0 the positive pivot
entry, and the loop pivots at `(0, 0)`. -/
theorem c3_pivot_selection_witness :
    mget tW 1 0 < -EPSILON ∧ EPSILON < mget tW 0 0 ∧
    pivotStep 1 1 tW = (pivotT tW 0 0 1 1, none) :=
  ⟨((c3_pivot_selection_amended tW 1 1).1 0 (by with_unfolding_all decide)).2.1,
   ((c3_pivot_selection_amended tW 1 1).2.1 0 0 (by with_unfolding_all decide)).2.1,
   (c3_pivot_selection_amended tW 1 1).2.2 0 0 (by with_unfolding_all decide)
     (by with_unfolding_all decide)⟩

/-- C2, witness: the amended theorem evaluated on the flipped system
`2 x = -3` (negative right-hand side) in row 0, column 0. -/
theorem c2_phase1_flip_witness :
    mget (setupPhaseOne sysNegRhs).1 0 0 = -(sysNegRhs.a 0 0) ∧
    mget (setupPhaseOne sysNegRhs).1 0 1 = 1 ∧
    mget (setupPhaseOne sysNegRhs).1 0 2 = -(sysNegRhs.b 0) :=
  (c2_phase1_flip_amended sysNegRhs 0 0 (by decide) (by decide)).1 (by decide)

end Day10

namespace Day10

theorem nodeLpCost_elim {sys : LinearSystem} {node : BranchNode} {tc : ℚ}
    (hc : nodeLpCost sys node = some tc) :
    ∃ lp sc sol, buildRelaxedSystem sys node = some (lp, sc) ∧
      simplexSolve lp = some sol ∧ sol.cost + sc = tc := by
  unfold nodeLpCost at hc
  cases hb : buildRelaxedSystem sys node with
  | none => rw [hb] at hc; simp at hc
  | some p =>
    obtain ⟨lp, sc⟩ := p
    rw [hb] at hc
    dsimp only at hc
    cases hs : simplexSolve lp with
    | none => rw [hs] at hc; simp at hc
    | some sol =>
      rw [hs] at hc
      simp only [Option.map_some', Option.some.injEq] at hc
      exact ⟨lp, sc, sol, rfl, hs, hc⟩

/-- C6: a popped node whose relaxed cost plus shift cost reaches
`best_int_cost - PRUNING_TOLERANCE` is discarded: the node is popped,
no children are pushed, and the incumbent cost and solution are left
unchanged. -/
theorem c6_bound_pruning (sys : LinearSystem) (st : MilpState) (node : BranchNode)
    (rest : List BranchNode) (tc : ℚ)
    (h : st.stack = node :: rest)
    (hc : nodeLpCost sys node = some tc)
    (hp : st.best_int_cost - PRUNING_TOLERANCE ≤ tc) :
    milpStep sys st = { st with stack := rest } := by
  obtain ⟨lp, sc, sol, hb, hs, he⟩ := nodeLpCost_elim hc
  exact milpStep_pruned h hb hs (he ▸ hp)

/-- C6, witness: with incumbent cost `0`, the node of `sysOk` (relaxed
cost `2`) is pruned and the state only loses its top node. -/
theorem c6_bound_pruning_witness :
    milpStep sysOk { stack := [rootNode1], best_int_cost := 0, best_sol := some [0] } =
      { stack := [], best_int_cost := 0, best_sol := some [0] } :=
  c6_bound_pruning sysOk _ rootNode1 [] 2 rfl (by with_unfolding_all rfl)
    (by with_unfolding_all decide)


theorem nodeFractional_elim {sys : LinearSystem} {node : BranchNode} {idx : Nat} {v : ℚ}
    (hf : nodeFractional sys node = some (idx, v)) :
    ∃ lp sc sol fx, buildRelaxedSystem sys node = some (lp, sc) ∧
      simplexSolve lp = some sol ∧
      mapSolutionToOriginal sol node = (fx, some (idx, v)) := by
  unfold nodeFractional at hf
  cases hb : buildRelaxedSystem sys node with
  | none => rw [hb] at hf; simp at hf
  | some p =>
    obtain ⟨lp, sc⟩ := p
    rw [hb] at hf
    dsimp only at hf
    cases hs : simplexSolve lp with
    | none => rw [hs] at hf; simp at hf
    | some sol =>
      rw [hs] at hf
      dsimp only at hf
      exact ⟨lp, sc, sol, (mapSolutionToOriginal sol node).1, rfl, hs, Prod.ext rfl hf⟩

theorem getD_set_ne {α : Type} (l : List α) (i j : Nat) (d a : α) (h : j ≠ i) :
    (l.set i a).getD j d = l.getD j d := by
  simp [List.getD_eq_getElem?_getD, List.getElem?_set_ne (Ne.symm h)]

theorem getD_set_self {α : Type} (l : List α) (i : Nat) (d a : α) (h : i < l.length) :
    (l.set i a).getD i d = a := by
  simp [List.getD_eq_getElem?_getD, List.getElem?_set_self h]

/-- C7: branching on fractional variable `idx` with value `v` pushes the
right child (lower bound raised to `max lb ⌈v⌉`) on top of the left
child (upper bound capped to `min ub ⌊v⌋`, an absent upper bound counting
as `f64::MAX`); all other bound entries of both children, the left
child's lower bounds and the right child's upper bounds are the
parent's. -/
theorem c7_branch_bounds (sys : LinearSystem) (st : MilpState) (node : BranchNode)
    (rest : List BranchNode) (tc : ℚ) (idx : Nat) (v : ℚ)
    (h : st.stack = node :: rest)
    (hc : nodeLpCost sys node = some tc)
    (hp : ¬ (st.best_int_cost - PRUNING_TOLERANCE ≤ tc))
    (hf : nodeFractional sys node = some (idx, v)) :
    milpStep sys st =
      { st with stack :=
          { lower_bounds := node.lower_bounds.set idx (max (node.lower_bounds.getD idx 0) ⌈v⌉)
            upper_bounds := node.upper_bounds } ::
          { lower_bounds := node.lower_bounds
            upper_bounds := node.upper_bounds.set idx
              (some (min ((node.upper_bounds.getD idx none).getD f64MAX) ⌊v⌋)) } ::
          rest } ∧
    (∀ j, j ≠ idx →
      (node.upper_bounds.set idx
          (some (min ((node.upper_bounds.getD idx none).getD f64MAX) ⌊v⌋))).getD j none =
        node.upper_bounds.getD j none ∧
      (node.lower_bounds.set idx (max (node.lower_bounds.getD idx 0) ⌈v⌉)).getD j 0 =
        node.lower_bounds.getD j 0) ∧
    (idx < node.upper_bounds.length →
      (node.upper_bounds.set idx
          (some (min ((node.upper_bounds.getD idx none).getD f64MAX) ⌊v⌋))).getD idx none =
        some (min ((node.upper_bounds.getD idx none).getD f64MAX) ⌊v⌋)) ∧
    (idx < node.lower_bounds.length →
      (node.lower_bounds.set idx (max (node.lower_bounds.getD idx 0) ⌈v⌉)).getD idx 0 =
        max (node.lower_bounds.getD idx 0) ⌈v⌉) := by
  obtain ⟨lp, sc, sol, fx, hb, hs, hm⟩ := nodeFractional_elim hf
  obtain ⟨lp', sc', sol', hb', hs', he⟩ := nodeLpCost_elim hc
  rw [hb] at hb'
  injection hb' with hb''
  obtain ⟨rfl, rfl⟩ : lp' = lp ∧ sc' = sc := ⟨congrArg Prod.fst hb''.symm, congrArg Prod.snd hb''.symm⟩
  rw [hs] at hs'
  injection hs' with hs''
  subst hs''
  refine ⟨milpStep_branch h hb hs (fun hle => hp (he ▸ hle)) hm, ?_, ?_, ?_⟩
  · intro j hj
    exact ⟨getD_set_ne _ _ _ _ _ hj, getD_set_ne _ _ _ _ _ hj⟩
  · intro hlen
    exact getD_set_self _ _ _ _ hlen
  · intro hlen
    exact getD_set_self _ _ _ _ hlen

/-- C7, witness: branching `sysFrac` (relaxation `x = 1/2`) at the root
yields the right child `x ≥ 1` on top of the left child `x ≤ 0`. -/
theorem c7_branch_bounds_witness :
    milpStep sysFrac (milpInit 1) =
      { milpInit 1 with stack :=
          [{ lower_bounds := [1], upper_bounds := [none] },
           { lower_bounds := [0], upper_bounds := [some 0] }] } :=
  ((c7_branch_bounds sysFrac (milpInit 1) rootNode1 [] (1/2) 0 (1/2)
      rfl (by with_unfolding_all rfl) (by with_unfolding_all decide)
      (by with_unfolding_all rfl)).1).trans (by with_unfolding_all rfl)

theorem milpStep_obs (sys : LinearSystem) (st : MilpState) :
    ((milpStep sys st).best_int_cost = st.best_int_cost ∧
      (milpStep sys st).best_sol = st.best_sol) ∨
    (∃ node rest fx, st.stack = node :: rest ∧
      nodeCandidate sys node = some fx ∧ verifyStrict sys fx = true ∧
      (milpStep sys st).best_int_cost =
        ((fx.map (fun v => (rustRound v).toNat)).sum : ℚ) ∧
      (milpStep sys st).best_sol = some (fx.map (fun v => (rustRound v).toNat)) ∧
      (milpStep sys st).best_int_cost < st.best_int_cost) := by
  cases hstk : st.stack with
  | nil =>
    left
    unfold milpStep
    rw [hstk]
    exact ⟨rfl, rfl⟩
  | cons node rest =>
    cases hb : buildRelaxedSystem sys node with
    | none =>
      left
      rw [milpStep_build_none hstk hb]
      exact ⟨rfl, rfl⟩
    | some p =>
      obtain ⟨lp, sc⟩ := p
      cases hs : simplexSolve lp with
      | none =>
        left
        rw [milpStep_solve_none hstk hb hs]
        exact ⟨rfl, rfl⟩
      | some sol =>
        by_cases hp : st.best_int_cost - PRUNING_TOLERANCE ≤ sol.cost + sc
        · left
          rw [milpStep_pruned hstk hb hs hp]
          exact ⟨rfl, rfl⟩
        · cases hm : mapSolutionToOriginal sol node with
          | mk fx snd =>
            cases snd with
            | some fr =>
              obtain ⟨idx, v⟩ := fr
              left
              rw [milpStep_branch hstk hb hs hp hm]
              exact ⟨rfl, rfl⟩
            | none =>
              cases hv : verifyStrict sys fx with
              | false =>
                left
                rw [milpStep_reject hstk hb hs hp hm hv]
                exact ⟨rfl, rfl⟩
              | true =>
                rw [milpStep_accept hstk hb hs hp hm hv]
                by_cases hlt :
                    ((fx.map (fun v => (rustRound v).toNat)).sum : ℚ) < st.best_int_cost
                · right
                  refine ⟨node, rest, fx, rfl, ?_, hv, ?_, ?_, ?_⟩
                  · unfold nodeCandidate
                    rw [hb]
                    dsimp only
                    rw [hs]
                    dsimp only
                    rw [hm]
                  · rw [if_pos hlt]
                  · rw [if_pos hlt]
                  · rw [if_pos hlt]
                    exact hlt
                · left
                  rw [if_neg hlt]
                  exact ⟨rfl, rfl⟩

/-- C8: along the branch-and-bound loop the incumbent cost never
increases, and a single step changes it only by accepting a strictly
verified integer candidate of strictly smaller cost. -/
theorem c8_incumbent_monotone (sys : LinearSystem) :
    (∀ fuel st, (milpLoop sys fuel st).best_int_cost ≤ st.best_int_cost) ∧
    (∀ st, (milpStep sys st).best_int_cost ≠ st.best_int_cost →
      (milpStep sys st).best_int_cost < st.best_int_cost ∧
      ∃ node rest fx, st.stack = node :: rest ∧
        nodeCandidate sys node = some fx ∧ verifyStrict sys fx = true ∧
        (milpStep sys st).best_int_cost =
          ((fx.map (fun v => (rustRound v).toNat)).sum : ℚ)) := by
  have hstep : ∀ st, (milpStep sys st).best_int_cost ≤ st.best_int_cost := by
    intro st
    rcases milpStep_obs sys st with ⟨he, _⟩ | ⟨_, _, _, _, _, _, _, _, hlt⟩
    · exact le_of_eq he
    · exact le_of_lt hlt
  constructor
  · intro fuel
    induction fuel with
    | zero => intro st; exact le_refl _
    | succ fuel ih =>
      intro st
      unfold milpLoop
      by_cases hst : st.stack = []
      · rw [if_pos hst]
      · rw [if_neg hst]
        exact le_trans (ih (milpStep sys st)) (hstep st)
  · intro st hne
    rcases milpStep_obs sys st with ⟨he, _⟩ | ⟨node, rest, fx, h1, h2, h3, h4, _, hlt⟩
    · exact absurd he hne
    · exact ⟨hlt, node, rest, fx, h1, h2, h3, h4⟩

/-- C8, witness: accepting `x = 2` on `sysOk` strictly lowers the
incumbent from `f64::MAX` to `2`, through a strictly verified candidate. -/
theorem c8_incumbent_monotone_witness :
    (milpStep sysOk (milpInit 1)).best_int_cost < (milpInit 1).best_int_cost ∧
    ∃ node rest fx, (milpInit 1).stack = node :: rest ∧
      nodeCandidate sysOk node = some fx ∧ verifyStrict sysOk fx = true ∧
      (milpStep sysOk (milpInit 1)).best_int_cost =
        ((fx.map (fun v => (rustRound v).toNat)).sum : ℚ) :=
  (c8_incumbent_monotone sysOk).2 (milpInit 1) (by with_unfolding_all decide)

/-- C1: an integer candidate updates the incumbent only when
`verify_strict` accepts it against the original, unshifted system; a
candidate failing strict verification leaves the incumbent cost and
solution unchanged and pushes no children. -/
theorem c1_strict_verification (sys : LinearSystem) (st : MilpState) (node : BranchNode)
    (rest : List BranchNode) (h : st.stack = node :: rest) :
    (∀ fx, nodeCandidate sys node = some fx → verifyStrict sys fx = false →
      milpStep sys st = { st with stack := rest }) ∧
    (((milpStep sys st).best_int_cost ≠ st.best_int_cost ∨
      (milpStep sys st).best_sol ≠ st.best_sol) →
      ∃ fx, nodeCandidate sys node = some fx ∧ verifyStrict sys fx = true) := by
  constructor
  · intro fx hcand hv
    unfold nodeCandidate at hcand
    cases hb : buildRelaxedSystem sys node with
    | none => rw [hb] at hcand; simp at hcand
    | some p =>
      obtain ⟨lp, sc⟩ := p
      rw [hb] at hcand
      dsimp only at hcand
      cases hs : simplexSolve lp with
      | none => rw [hs] at hcand; simp at hcand
      | some sol =>
        rw [hs] at hcand
        dsimp only at hcand
        by_cases hp : st.best_int_cost - PRUNING_TOLERANCE ≤ sol.cost + sc
        · exact milpStep_pruned h hb hs hp
        · cases hm : mapSolutionToOriginal sol node with
          | mk fx' snd =>
            rw [hm] at hcand
            cases snd with
            | some fr => simp at hcand
            | none =>
              simp only [Option.some.injEq] at hcand
              subst hcand
              exact milpStep_reject h hb hs hp hm hv
  · intro hne
    rcases milpStep_obs sys st with ⟨he, hsol⟩ | ⟨node', rest', fx, h1, h2, h3, _, _, _⟩
    · rcases hne with hne | hne
      · exact absurd he hne
      · exact absurd hsol hne
    · rw [h] at h1
      injection h1 with hn hr
      subst hn
      exact ⟨fx, h2, h3⟩

/-- C1, witness: on `sysBad` (whose `original_b` row is `1000` while the
relaxation solves `x = 3`) the candidate fails strict verification and
the state only loses its top node; on `sysOk` the incumbent changes and
a strictly verified candidate exists. -/
theorem c1_strict_verification_witness :
    milpStep sysBad (milpInit 1) = { milpInit 1 with stack := [] } ∧
    ∃ fx, nodeCandidate sysOk rootNode1 = some fx ∧ verifyStrict sysOk fx = true :=
  ⟨(c1_strict_verification sysBad (milpInit 1) rootNode1 [] rfl).1 [3]
      (by with_unfolding_all rfl) (by with_unfolding_all rfl),
   (c1_strict_verification sysOk (milpInit 1) rootNode1 [] rfl).2
      (Or.inl (by with_unfolding_all decide))⟩

/-- C9: at both call sites of `pivot` — the minimum-ratio step of the
pivot loop and the basis-repair step — the selected pivot entry's
absolute value exceeds `EPSILON = 1e-9`, hence is non-zero, so
`1.0 / pivot_val` is never taken of a (near-)zero value. -/
theorem c9_pivot_entry_nonzero (t : List (List ℚ)) (m n : Nat) :
    (∀ pc pr, minRatioRow t m n pc = some pr →
      EPSILON < |mget t pr pc| ∧ mget t pr pc ≠ 0) ∧
    (∀ r pc, (List.range n).find? (fun c => decide (EPSILON < |mget t r c|)) = some pc →
      EPSILON < |mget t r pc| ∧ mget t r pc ≠ 0) := by
  have habs : ∀ x : ℚ, EPSILON < |x| → x ≠ 0 := by
    intro x hx h0
    rw [h0, abs_zero] at hx
    norm_num [EPSILON] at hx
  constructor
  · intro pc pr h
    obtain ⟨_, hv, _, _⟩ := minRatioRow_spec t m n pc pr h
    have h2 : EPSILON < |mget t pr pc| := lt_of_lt_of_le hv (le_abs_self _)
    exact ⟨h2, habs _ h2⟩
  · intro r pc h
    have hp := List.find?_some h
    have h2 : EPSILON < |mget t r pc| := of_decide_eq_true hp
    exact ⟨h2, habs _ h2⟩

/-- C9, witness: on tableau `tW` both selections (the min-ratio row for
pivot column 0, and the basis-repair column search in row 1) return an
entry exceeding `EPSILON` in absolute value. -/
theorem c9_pivot_entry_nonzero_witness :
    (EPSILON < |mget tW 0 0| ∧ mget tW 0 0 ≠ 0) ∧
    (EPSILON < |mget tW 1 0| ∧ mget tW 1 0 ≠ 0) :=
  ⟨(c9_pivot_entry_nonzero tW 1 1).1 0 0 (by with_unfolding_all rfl),
   (c9_pivot_entry_nonzero tW 1 1).2 1 0 (by with_unfolding_all rfl)⟩

theorem pivotStep_verdict_matrix {m n : Nat} {t t' : List (List ℚ)} {v : Bool}
    (h : pivotStep m n t = (t', some v)) : t' = t := by
  unfold pivotStep at h
  cases hb : blandCol t m n with
  | none =>
    rw [hb] at h
    exact (congrArg Prod.fst h).symm
  | some pc =>
    rw [hb] at h
    dsimp only at h
    cases hr : minRatioRow t m n pc with
    | none =>
      rw [hr] at h
      exact (congrArg Prod.fst h).symm
    | some pr =>
      rw [hr] at h
      dsimp only at h
      exact absurd (congrArg Prod.snd h) (by simp)

theorem iterPivot_shift (m n : Nat) (t : List (List ℚ)) :
    ∀ k, iterPivot m n t (k + 1) = iterPivot m n ((pivotStep m n t).1) k := by
  intro k
  induction k with
  | zero => rfl
  | succ k ih =>
    show (pivotStep m n (iterPivot m n t (k + 1))).1 = _
    rw [ih]
    rfl

theorem runPivotLoopAux_spec (m n : Nat) :
    ∀ fuel t, ∃ k, k ≤ fuel ∧
      (∀ j < k, (pivotStep m n (iterPivot m n t j)).2 = none) ∧
      ((∃ v, (pivotStep m n (iterPivot m n t k)).2 = some v ∧
         runPivotLoopAux m n fuel t = (iterPivot m n t k, v)) ∨
       (k = fuel ∧ runPivotLoopAux m n fuel t = (iterPivot m n t fuel, false))) := by
  intro fuel
  induction fuel with
  | zero =>
    intro t
    exact ⟨0, le_refl 0, fun j hj => absurd hj (Nat.not_lt_zero j), Or.inr ⟨rfl, rfl⟩⟩
  | succ fuel ih =>
    intro t
    cases hps : pivotStep m n t with
    | mk t' o =>
      cases o with
      | some v =>
        have ht' : t' = t := pivotStep_verdict_matrix hps
        refine ⟨0, Nat.zero_le _, fun j hj => absurd hj (Nat.not_lt_zero j),
          Or.inl ⟨v, ?_, ?_⟩⟩
        · show (pivotStep m n t).2 = some v
          rw [hps]
        · unfold runPivotLoopAux
          rw [hps]
          dsimp only
          rw [ht']
          rfl
      | none =>
        obtain ⟨k, hk, hnone, hres⟩ := ih t'
        have hfst : (pivotStep m n t).1 = t' := congrArg Prod.fst hps
        refine ⟨k + 1, Nat.succ_le_succ hk, ?_, ?_⟩
        · intro j hj
          cases j with
          | zero =>
            show (pivotStep m n t).2 = none
            rw [hps]
          | succ j' =>
            rw [iterPivot_shift, hfst]
            exact hnone j' (Nat.lt_of_succ_lt_succ hj)
        · rcases hres with ⟨v, hv, he⟩ | ⟨hkf, he⟩
          · left
            refine ⟨v, ?_, ?_⟩
            · rw [iterPivot_shift, hfst]
              exact hv
            · unfold runPivotLoopAux
              rw [hps]
              dsimp only
              rw [he, iterPivot_shift, hfst]
          · right
            refine ⟨by rw [hkf], ?_⟩
            unfold runPivotLoopAux
            rw [hps]
            dsimp only
            rw [he, iterPivot_shift, hfst]

/-- C4: the pivot loop performs at most `5000` iterations — it either
reaches an optimal/unbounded verdict at some step `k ≤ 5000` or, with no
verdict in `5000` steps, reports failure (`false`); a failed loop makes
`simplex::solve` return `None`, and a node whose relaxation yields no
solution is popped without pushing children or touching the incumbent. -/
theorem c4_iteration_cap :
    (∀ m n t, ∃ k, k ≤ 5000 ∧
      (∀ j < k, (pivotStep m n (iterPivot m n t j)).2 = none) ∧
      ((∃ v, (pivotStep m n (iterPivot m n t k)).2 = some v ∧
         runPivotLoop t m n = (iterPivot m n t k, v)) ∨
       (k = 5000 ∧ runPivotLoop t m n = (iterPivot m n t 5000, false)))) ∧
    (∀ sys, (phase1Run sys).2 = false → simplexSolve sys = none) ∧
    (∀ sys, (phase2Run sys).2 = false → simplexSolve sys = none) ∧
    (∀ sys st node rest, st.stack = node :: rest → nodeLpCost sys node = none →
      milpStep sys st = { st with stack := rest }) := by
  refine ⟨?_, ?_, ?_, ?_⟩
  · intro m n t
    exact runPivotLoopAux_spec m n 5000 t
  · intro sys h
    unfold simplexSolve
    rw [if_pos h]
  · intro sys h
    unfold simplexSolve
    split_ifs <;> rfl
  · intro sys st node rest h hc
    unfold nodeLpCost at hc
    cases hb : buildRelaxedSystem sys node with
    | none => exact milpStep_build_none h hb
    | some p =>
      obtain ⟨lp, sc⟩ := p
      rw [hb] at hc
      dsimp only at hc
      cases hs : simplexSolve lp with
      | none => exact milpStep_solve_none h hb hs
      | some sol =>
        rw [hs] at hc
        simp at hc

/-- C4, witness: `sysP1F` fails its Phase-1 loop (unbounded verdict),
`sysUnb` fails its Phase-2 loop; both make the solver return `None`, and
the infeasible node of `sysInfeas` is popped with nothing pushed. -/
theorem c4_iteration_cap_witness :
    simplexSolve sysP1F = none ∧ simplexSolve sysUnb = none ∧
    milpStep sysInfeas (milpInit 1) = { milpInit 1 with stack := [] } :=
  ⟨c4_iteration_cap.2.1 sysP1F (by with_unfolding_all rfl),
   c4_iteration_cap.2.2.1 sysUnb (by with_unfolding_all rfl),
   c4_iteration_cap.2.2.2 sysInfeas (milpInit 1) rootNode1 [] rfl
     (by with_unfolding_all rfl)⟩

theorem extractSolution_ne_none (t : List (List ℚ)) (m n : Nat) :
    extractSolution t m n ≠ none := by
  unfold extractSolution
  simp

/-- C5, counterexample: on `sysP1F` the solver returns `None` although
the entering column (column 0, picked by Bland's rule in the very first
Phase-1 iteration) has rows with strictly positive entries (`5e-10` in
every constraint row) — the claim's unbounded condition "no row of
strictly positive pivot-column entry" does not hold, and no Phase-1
optimal objective value exceeding the tolerance exists either (the loop
aborts before producing one); the code declares the column unbounded
because no entry exceeds `EPSILON = 1e-9`. -/
theorem c5_solve_contract_counterexample :
    simplexSolve sysP1F = none ∧
    (phase1Run sysP1F).2 = false ∧
    blandCol (phase1Tab sysP1F) 3 4 = some 0 ∧
    0 < mget (phase1Tab sysP1F) 0 0 ∧
    minRatioRow (phase1Tab sysP1F) 3 4 0 = none :=
  ⟨by with_unfolding_all rfl, by with_unfolding_all rfl, by with_unfolding_all rfl,
   by with_unfolding_all decide, by with_unfolding_all rfl⟩

/-- C5, amended: `simplex::solve` returns `None` exactly when the
Phase-1 pivot loop fails, the Phase-1 objective exceeds
`PHASE1_TOLERANCE = 1e-4` in absolute value, or the Phase-2 pivot loop
fails; a pivot loop fails only through the unbounded verdict — an
entering column in which no row passes the minimum-ratio test, whose
eligibility requires the pivot-column entry to exceed `EPSILON = 1e-9`
(not merely to be strictly positive) — or through exhausting the
5000-iteration cap; when all three gates pass, the solver returns `Some`
of the solution and cost extracted from the optimized tableau. -/
theorem c5_solve_contract (sys : LinearSystem) :
    (simplexSolve sys = none ↔
      ((phase1Run sys).2 = false ∨ PHASE1_TOLERANCE < |phase1Cost sys| ∨
        (phase2Run sys).2 = false)) ∧
    (∀ t m n pc, blandCol t m n = some pc → minRatioRow t m n pc = none →
      pivotStep m n t = (t, some false)) ∧
    (∀ t m n pc, (∀ r < m, ¬ (EPSILON < mget t r pc)) →
      minRatioRow t m n pc = none) ∧
    (∀ t m n, (runPivotLoop t m n).2 = false →
      (∃ k ≤ 5000, (pivotStep m n (iterPivot m n t k)).2 = some false) ∨
      (∀ j < 5000, (pivotStep m n (iterPivot m n t j)).2 = none)) ∧
    ((phase1Run sys).2 = true → ¬ (PHASE1_TOLERANCE < |phase1Cost sys|) →
      (phase2Run sys).2 = true →
      simplexSolve sys = extractSolution (phase2Run sys).1 (phase2Start sys).2 sys.n ∧
      (simplexSolve sys).isSome = true) := by
  refine ⟨?_, ?_, ?_, ?_, ?_⟩
  · unfold simplexSolve
    split_ifs with h1 h2 h3
    · simp [h1]
    · simp [h2]
    · simp [h3]
    · constructor
      · intro hc
        exact absurd hc (extractSolution_ne_none _ _ _)
      · rintro (h | h | h)
        · exact absurd h h1
        · exact absurd h h2
        · exact absurd h h3
  · intro t m n pc h1 h2
    unfold pivotStep
    rw [h1]
    dsimp only
    rw [h2]
  · intro t m n pc hno
    cases h : minRatioRow t m n pc with
    | none => rfl
    | some pr =>
      obtain ⟨hlt, hv, _, _⟩ := minRatioRow_spec t m n pc pr h
      exact absurd hv (hno pr hlt)
  · intro t m n hf
    obtain ⟨k, hk, hnone, hres⟩ := runPivotLoopAux_spec m n 5000 t
    rcases hres with ⟨v, hv, he⟩ | ⟨hk5, he⟩
    · left
      have hv2 : (runPivotLoop t m n).2 = v := by
        unfold runPivotLoop
        rw [he]
      rw [hv2] at hf
      exact ⟨k, hk, hf ▸ hv⟩
    · right
      intro j hj
      exact hnone j (by rw [hk5]; exact hj)
  · intro h1 h2 h3
    have hs : simplexSolve sys =
        extractSolution (phase2Run sys).1 (phase2Start sys).2 sys.n := by
      unfold simplexSolve
      rw [if_neg (by rw [h1]; exact fun h => Bool.noConfusion h),
        if_neg h2, if_neg (by rw [h3]; exact fun h => Bool.noConfusion h)]
    refine ⟨hs, ?_⟩
    rw [hs]
    exact Option.isSome_iff_ne_none.mpr (extractSolution_ne_none _ _ _)

/-- C5, witness: `sysInfeas` is reported infeasible through the Phase-1
objective gate; the unbounded verdict fires on tableau `tU`; on
`sysP1F`'s Phase-1 tableau no row of column 0 exceeds `EPSILON`, so the
min-ratio test yields no leaving row; the failed loop on `tU` stems from
a `false` verdict within the cap; and the solver produces a solution on
`sysOk`. -/
theorem c5_solve_contract_witness :
    simplexSolve sysInfeas = none ∧
    pivotStep 0 1 tU = (tU, some false) ∧
    minRatioRow (phase1Tab sysP1F) 3 4 0 = none ∧
    ((∃ k ≤ 5000, (pivotStep 0 1 (iterPivot 0 1 tU k)).2 = some false) ∨
      (∀ j < 5000, (pivotStep 0 1 (iterPivot 0 1 tU j)).2 = none)) ∧
    (simplexSolve sysOk).isSome = true :=
  ⟨(c5_solve_contract sysInfeas).1.mpr
      (Or.inr (Or.inl (by with_unfolding_all decide))),
   (c5_solve_contract sysOk).2.1 tU 0 1 0 (by with_unfolding_all rfl)
      (by with_unfolding_all rfl),
   (c5_solve_contract sysOk).2.2.1 (phase1Tab sysP1F) 3 4 0
      (by with_unfolding_all decide),
   (c5_solve_contract sysOk).2.2.2.1 tU 0 1 (by with_unfolding_all rfl),
   ((c5_solve_contract sysOk).2.2.2.2 (by with_unfolding_all rfl)
      (by with_unfolding_all decide) (by with_unfolding_all rfl)).2⟩

theorem collectSlacks_none_iff (lbs : List ℚ) (ubs : List (Option ℚ)) :
    ∀ cs : List Nat, collectSlacks lbs ubs cs = none ↔
      ∃ c ∈ cs, ∃ u, ubs.getD c none = some u ∧ u - lbs.getD c 0 < -(1 / 1000) := by
  intro cs
  induction cs with
  | nil => simp [collectSlacks]
  | cons c cs ih =>
    unfold collectSlacks
    cases hu : ubs.getD c none with
    | none =>
      rw [ih]
      constructor
      · rintro ⟨c', hc', hrest⟩
        exact ⟨c', List.mem_cons_of_mem _ hc', hrest⟩
      · rintro ⟨c', hc', u, hu', hlt⟩
        rcases List.mem_cons.mp hc' with rfl | hmem
        · rw [hu] at hu'
          exact absurd hu' (by simp)
        · exact ⟨c', hmem, u, hu', hlt⟩
    | some u =>
      dsimp only
      by_cases hlim : u - lbs.getD c 0 < -(1 / 1000)
      · rw [if_pos hlim]
        simp only [true_iff]
        exact ⟨c, List.mem_cons_self _ _, u, hu, hlim⟩
      · rw [if_neg hlim, Option.map_eq_none', ih]
        constructor
        · rintro ⟨c', hc', hrest⟩
          exact ⟨c', List.mem_cons_of_mem _ hc', hrest⟩
        · rintro ⟨c', hc', u', hu', hlt⟩
          rcases List.mem_cons.mp hc' with rfl | hmem
          · rw [hu] at hu'
            injection hu' with hu''
            subst hu''
            exact absurd hlt hlim
          · exact ⟨c', hmem, u', hu', hlt⟩

theorem collectSlacks_some_spec (lbs : List ℚ) (ubs : List (Option ℚ)) :
    ∀ (cs : List Nat) (slacks : List (Nat × ℚ)),
      collectSlacks lbs ubs cs = some slacks →
      ∀ p ∈ slacks, ∃ u, ubs.getD p.1 none = some u ∧
        ¬ (u - lbs.getD p.1 0 < -(1 / 1000)) ∧
        p.2 = max (u - lbs.getD p.1 0) 0 := by
  intro cs
  induction cs with
  | nil =>
    intro slacks h p hp
    unfold collectSlacks at h
    injection h with h
    subst h
    simp at hp
  | cons c cs ih =>
    intro slacks h p hp
    unfold collectSlacks at h
    cases hu : ubs.getD c none with
    | none =>
      rw [hu] at h
      exact ih slacks h p hp
    | some u =>
      rw [hu] at h
      dsimp only at h
      by_cases hlim : u - lbs.getD c 0 < -(1 / 1000)
      · rw [if_pos hlim] at h
        exact absurd h (by simp)
      · rw [if_neg hlim] at h
        obtain ⟨rest, hrest, hsl⟩ := Option.map_eq_some'.mp h
        subst hsl
        rcases List.mem_cons.mp hp with rfl | hmem
        · exact ⟨u, hu, hlim, rfl⟩
        · exact ih rest hrest p hmem

theorem buildRelaxedSystem_none_iff (sys : LinearSystem) (node : BranchNode) :
    buildRelaxedSystem sys node = none ↔
      collectSlacks node.lower_bounds node.upper_bounds (List.range sys.n) = none := by
  unfold buildRelaxedSystem
  cases hcol : collectSlacks node.lower_bounds node.upper_bounds (List.range sys.n) with
  | none => simp
  | some slacks => simp

/-- C10: `build_relaxed_system` rejects a node exactly when some upper
bound gives `ub - lb < -1e-3`; on an accepted node every recorded slack
limit is `max (ub - lb) 0` (a slightly negative bound is clamped to `0`),
and every appended slack right-hand-side entry of the built system is
this clamped, non-negative value. -/
theorem c10_slack_rhs (sys : LinearSystem) (node : BranchNode) :
    (buildRelaxedSystem sys node = none ↔
      ∃ c ∈ List.range sys.n, ∃ u, node.upper_bounds.getD c none = some u ∧
        u - node.lower_bounds.getD c 0 < -(1 / 1000)) ∧
    (∀ slacks,
      collectSlacks node.lower_bounds node.upper_bounds (List.range sys.n) = some slacks →
      (∀ p ∈ slacks, ∃ u, node.upper_bounds.getD p.1 none = some u ∧
        ¬ (u - node.lower_bounds.getD p.1 0 < -(1 / 1000)) ∧
        p.2 = max (u - node.lower_bounds.getD p.1 0) 0 ∧ 0 ≤ p.2) ∧
      ∃ lp sc, buildRelaxedSystem sys node = some (lp, sc) ∧
        lp.m = sys.m + slacks.length ∧
        ∀ i < slacks.length,
          lp.b (sys.m + i) = (slacks.getD i (0, 0)).2 ∧ 0 ≤ lp.b (sys.m + i)) := by
  constructor
  · exact (buildRelaxedSystem_none_iff sys node).trans (collectSlacks_none_iff _ _ _)
  · intro slacks hcol
    have hspec := collectSlacks_some_spec node.lower_bounds node.upper_bounds
      (List.range sys.n) slacks hcol
    have hmem : ∀ i, i < slacks.length → slacks.getD i (0, 0) ∈ slacks := by
      intro i hi
      rw [List.getD_eq_getElem?_getD, List.getElem?_eq_getElem hi]
      simp only [Option.getD_some]
      exact List.getElem_mem _
    constructor
    · intro p hp
      obtain ⟨u, h1, h2, h3⟩ := hspec p hp
      exact ⟨u, h1, h2, h3, h3 ▸ le_max_right _ _⟩
    · unfold buildRelaxedSystem
      simp only [hcol]
      refine ⟨_, _, rfl, rfl, ?_⟩
      intro i hi
      have hlt : ¬ (sys.m + i < sys.m) := by omega
      obtain ⟨u, hu1, hu2, hu3⟩ := hspec _ (hmem i hi)
      constructor
      · dsimp only
        rw [if_neg hlt, Nat.add_sub_cancel_left]
      · dsimp only
        rw [if_neg hlt, Nat.add_sub_cancel_left, hu3]
        exact le_max_right _ _

/-- C10, witness: the node closing the bound to `ub = lb = 0` is accepted
with slack pair `(0, 0)` and non-negative appended right-hand side, while
the node with `ub - lb = -1` is rejected. -/
theorem c10_slack_rhs_witness :
    buildRelaxedSystem sysOk nodeNeg = none ∧
    ∃ lp sc, buildRelaxedSystem sysOk nodeTight = some (lp, sc) ∧
      lp.m = sysOk.m + [((0 : Nat), (0 : ℚ))].length ∧
      ∀ i < [((0 : Nat), (0 : ℚ))].length,
        lp.b (sysOk.m + i) = ([((0 : Nat), (0 : ℚ))].getD i (0, 0)).2 ∧
        0 ≤ lp.b (sysOk.m + i) :=
  ⟨(c10_slack_rhs sysOk nodeNeg).1.mpr
      ⟨0, by with_unfolding_all decide, 0, by with_unfolding_all rfl,
        by with_unfolding_all decide⟩,
   ((c10_slack_rhs sysOk nodeTight).2 [((0 : Nat), (0 : ℚ))]
      (by with_unfolding_all rfl)).2⟩

end Day10
